import Mathlib

/-!
Verification of the World coordinator (`src/source/client/game/World.ts`).

The World owns an insertion-ordered entity registry (a JS `Map` keyed by
entity name), an ordered system list kept sorted by priority, scene-graph
attachment of entity nodes, and the four frame-scheduling passes
(`update`, `fixedUpdate`, `preRender`, `postRender`).

Shallow embedding conventions:
* the JS `Map<EntityId, IGameEntity>` registry is an insertion-ordered
  association list `List (String × Entity)`;
* JS object identity of systems is modelled by a numeric `sysId`;
* hook invocations (initialize / update / destroy / addEntity /
  removeEntity on entities and systems) are recorded in an event log,
  since the hook bodies live outside this core;
* a hook that throws at runtime is modelled by a `updateFaults` flag on
  the entity/system; JS exception propagation is explicit: an operation
  returns the events that happened before the throw plus the fault.

`BaseEntity` / `BaseSystem` are not part of the given sources; the few
entity/system internals the World touches (tracked subset mutation,
entity `toJSON` / `fromJSON` / `addChild`) are modelled from the spec
where marked.
-/

/-- An entity as the World observes it: name (identity key), `active`
flag, parent/child tree links (names), and whether its `update` hook
throws when invoked. -/
structure Entity where
  name : String
  active : Bool
  parent : Option String
  children : List String
  updateFaults : Bool
  deriving DecidableEq, Repr

/-- A system as the World observes it: JS object identity (`sysId`),
name, priority, `enabled` flag, its tracked-entity subset (entity
names), its compatibility predicate, which optional hooks it exposes,
and whether its `update` hook throws when invoked. -/
structure System where
  sysId : Nat
  name : String
  priority : Int
  enabled : Bool
  tracked : List String
  compat : Entity → Bool
  hasFixedUpdate : Bool
  hasPreRender : Bool
  hasPostRender : Bool
  updateFaults : Bool

/-- Hook-invocation events emitted by the World's operations. -/
inductive Ev where
  | sysInit (id : Nat)
  | sysUpdate (id : Nat)
  | sysFixedUpdate (id : Nat)
  | sysPreRender (id : Nat)
  | sysPostRender (id : Nat)
  | sysDestroy (id : Nat)
  | sysAddEntity (sid : Nat) (eid : String)
  | sysRemoveEntity (sid : Nat) (eid : String)
  | entInit (id : String)
  | entUpdate (id : String)
  | entDestroy (id : String)
  deriving DecidableEq, Repr

/-- A runtime fault escaping a hook, identified by the faulting item. -/
inductive Fault where
  | sys (id : Nat)
  | ent (id : String)
  deriving DecidableEq, Repr

/-- The World state: `name`, entity registry (insertion-ordered), system
list, the scene-graph root's children (entity names, one node per
registered entity), and the three flags. -/
structure World where
  name : String
  entities : List (String × Entity)
  systems : List System
  sceneChildren : List String
  active : Bool
  initialized : Bool
  paused : Bool

/-- Lookup in the registry association list (JS `Map.get`). -/
def findEnt : List (String × Entity) → String → Option Entity
  | [], _ => none
  | p :: r, k => if p.1 = k then some p.2 else findEnt r k

/-- Membership test on the registry (JS `Map.has`). -/
def hasEnt (l : List (String × Entity)) (k : String) : Bool :=
  (findEnt l k).isSome

/-- Update the entity stored under a given key, in place. -/
def updateEnt (l : List (String × Entity)) (k : String) (f : Entity → Entity) :
    List (String × Entity) :=
  l.map (fun p => if p.1 = k then (p.1, f p.2) else p)

/-- Modelled from the spec: `BaseSystem.addEntity` (not in the given
sources) adds an entity to the system's tracked subset ("systems that
accept it add it to their tracked subset", a set: no duplicates). -/
def System.trackEntity (s : System) (e : Entity) : System :=
  { s with tracked := if s.tracked.contains e.name then s.tracked else s.tracked ++ [e.name] }

/-- World.addEntity: reject duplicates by name (warn + no-op); otherwise
insert into the registry, attach the node to the scene, offer the entity
to every system via `checkEntityCompatibility`, and — if the world is
already initialized — call the entity's `initialize()`. -/
def World.addEntity (w : World) (e : Entity) : World × List Ev :=
  if hasEnt w.entities e.name then (w, [])
  else
    let offered := w.systems.map (fun s =>
      if s.compat e then (s.trackEntity e, some (Ev.sysAddEntity s.sysId e.name))
      else (s, none))
    ({ w with
        entities := w.entities ++ [(e.name, e)],
        sceneChildren := w.sceneChildren ++ [e.name],
        systems := offered.map (fun q => q.1) },
      offered.filterMap (fun q => q.2) ++
        (if w.initialized then [Ev.entInit e.name] else []))

/-- World.removeEntity: if the id is unknown return `false` untouched;
otherwise detach the scene node, notify every system to drop the entity
(unconditionally), erase from the registry, return `true`. -/
def World.removeEntity (w : World) (id : String) : World × Bool × List Ev :=
  match findEnt w.entities id with
  | none => (w, false, [])
  | some _ =>
    ({ w with
        sceneChildren := w.sceneChildren.filter (fun n => n ≠ id),
        systems := w.systems.map (fun s =>
          { s with tracked := s.tracked.filter (fun n => n ≠ id) }),
        entities := w.entities.filter (fun p => p.1 ≠ id) },
      true,
      w.systems.map (fun s => Ev.sysRemoveEntity s.sysId id))

/-- The stable insertion step of the system sort: a system is placed
before the first element of greater-or-equal... precisely, before the
first element it compares `≤` to, which preserves the original order of
equal-priority systems (JS `Array.prototype.sort` is stable). -/
def insertSys (s : System) : List System → List System
  | [] => [s]
  | t :: ts => if s.priority ≤ t.priority then s :: t :: ts else t :: insertSys s ts

/-- World.sortSystems: stable sort of the system list by ascending
priority (`(a, b) => a.priority - b.priority`). -/
def sortSystems (l : List System) : List System :=
  l.foldr insertSys []

/-- World.addSystem: reject a duplicate system instance (identity
comparison); otherwise append, re-sort by priority, and if the world is
already initialized, initialize the new system and seed its tracked
subset from every already-registered entity. -/
def World.addSystem (w : World) (s : System) : World × List Ev :=
  if w.systems.any (fun t => t.sysId = s.sysId) then (w, [])
  else
    let sorted := sortSystems (w.systems ++ [s])
    if w.initialized then
      let seeded := w.entities.foldl (fun acc p =>
        if acc.1.compat p.2 then
          (acc.1.trackEntity p.2, acc.2 ++ [Ev.sysAddEntity acc.1.sysId p.2.name])
        else acc) (s, ([] : List Ev))
      ({ w with systems := sorted.map (fun t => if t.sysId = s.sysId then seeded.1 else t) },
        Ev.sysInit s.sysId :: seeded.2)
    else
      ({ w with systems := sorted }, [])

/-- Remove the first system with the given identity (JS `indexOf` +
`splice(index, 1)`). -/
def eraseSys : List System → Nat → List System
  | [], _ => []
  | t :: ts, i => if t.sysId = i then ts else t :: eraseSys ts i

/-- World.removeSystem: splice the system out of the list (no re-sort;
remaining order preserved), call its `destroy()`, return `true`;
`false` untouched when absent. -/
def World.removeSystem (w : World) (sid : Nat) : World × Bool × List Ev :=
  if w.systems.any (fun t => t.sysId = sid) then
    ({ w with systems := eraseSys w.systems sid }, true, [Ev.sysDestroy sid])
  else (w, false, [])

/-- World.initialize: no-op if already initialized; otherwise initialize
every system then every entity, mark initialized (event-bus
subscription/publication is external). -/
def World.initialize (w : World) : World × List Ev :=
  if w.initialized then (w, [])
  else
    ({ w with initialized := true },
      w.systems.map (fun s => Ev.sysInit s.sysId) ++
        w.entities.map (fun p => Ev.entInit p.1))

/-- World.destroy: snapshot the key set, destroy each entity found under
a snapshotted key, clear the registry, destroy each system over a copy
of the list, clear the list, empty the scene root, flip the flags. -/
def World.destroy (w : World) : World × List Ev :=
  let entityIds := w.entities.map (fun p => p.1)
  let entEvs := entityIds.foldl (fun acc id =>
    match findEnt w.entities id with
    | some _ => acc ++ [Ev.entDestroy id]
    | none => acc) ([] : List Ev)
  let sysEvs := w.systems.foldl (fun acc s => acc ++ [Ev.sysDestroy s.sysId]) ([] : List Ev)
  ({ w with
      entities := [], systems := [], sceneChildren := [],
      active := false, initialized := false },
    entEvs ++ sysEvs)

/-- World.pause: idempotent guard, then set the flag (the pause event on
the bus is external). -/
def World.pause (w : World) : World :=
  if w.paused then w else { w with paused := true }

/-- World.resume: idempotent guard, then clear the flag. -/
def World.resume (w : World) : World :=
  if w.paused then { w with paused := false } else w

/-- The `for (const system of this.systems)` update loop: each enabled
system's `update` is invoked; a throwing hook propagates immediately
(there is no try/catch in `World.update`). -/
def runSysUpdates : List System → List Ev × Option Fault
  | [] => ([], none)
  | s :: rest =>
    if s.enabled then
      if s.updateFaults then ([Ev.sysUpdate s.sysId], some (Fault.sys s.sysId))
      else
        let r := runSysUpdates rest
        (Ev.sysUpdate s.sysId :: r.1, r.2)
    else runSysUpdates rest

/-- The `this.entities.forEach` update loop: each active entity's
`update` is invoked; a throwing hook propagates immediately. -/
def runEntUpdates : List (String × Entity) → List Ev × Option Fault
  | [] => ([], none)
  | p :: rest =>
    if p.2.active then
      if p.2.updateFaults then ([Ev.entUpdate p.1], some (Fault.ent p.1))
      else
        let r := runEntUpdates rest
        (Ev.entUpdate p.1 :: r.1, r.2)
    else runEntUpdates rest

/-- World.update: return immediately if inactive or paused; otherwise
update enabled systems in list order, then active entities in registry
order. A fault thrown by a system hook skips all entities and escapes;
a fault thrown by an entity hook skips the remaining entities and
escapes. -/
def World.update (w : World) : List Ev × Option Fault :=
  if !w.active || w.paused then ([], none)
  else
    let rs := runSysUpdates w.systems
    match rs.2 with
    | some f => (rs.1, some f)
    | none =>
      let re := runEntUpdates w.entities
      (rs.1 ++ re.1, re.2)

/-- World.fixedUpdate: systems only, in list order, gated on `enabled`
and on the optional hook being present. -/
def World.fixedUpdate (w : World) : List Ev :=
  if !w.active || w.paused then []
  else
    w.systems.filterMap (fun s =>
      if s.enabled && s.hasFixedUpdate then some (Ev.sysFixedUpdate s.sysId) else none)

/-- World.preRender: systems only, gated on `enabled` and hook presence. -/
def World.preRender (w : World) : List Ev :=
  if !w.active || w.paused then []
  else
    w.systems.filterMap (fun s =>
      if s.enabled && s.hasPreRender then some (Ev.sysPreRender s.sysId) else none)

/-- World.postRender: systems only, gated on `enabled` and hook presence. -/
def World.postRender (w : World) : List Ev :=
  if !w.active || w.paused then []
  else
    w.systems.filterMap (fun s =>
      if s.enabled && s.hasPostRender then some (Ev.sysPostRender s.sysId) else none)

/-- The World constructor: named `BaseWorld`, empty registry and system
list, `active = true`, not initialized, not paused (the scene handle is
the external renderer's scene; its children list is modelled per
world). -/
def mkWorld : World :=
  { name := "BaseWorld", entities := [], systems := [], sceneChildren := [],
    active := true, initialized := false, paused := false }

/-- A freshly constructed `BaseEntity` as created by
`World.createEntity`: active, no parent, no children. -/
def mkEntity (nm : String) : Entity :=
  { name := nm, active := true, parent := none, children := [], updateFaults := false }

/-- The serialized form of one entity in a world snapshot. -/
structure EntityJSON where
  name : String
  active : Bool
  children : List String
  deriving DecidableEq, Repr

/-- The serialized form of a world: name, active flag, and the flat
entity map (insertion-ordered keys, as JS object keys are). -/
structure WorldJSON where
  name : String
  active : Bool
  entities : List (String × EntityJSON)
  deriving DecidableEq, Repr

/-- Modelled from the spec: `BaseEntity.toJSON` (not in the given
sources) serializes the entity-local state — name, active flag, and the
child-id list — and does not embed child entities inline. -/
def entityToJSON (e : Entity) : EntityJSON :=
  { name := e.name, active := e.active, children := e.children }

/-- World.toJSON: world-level fields plus, for every parentless entity
in the registry, that entity's own serialization under its registry
key. -/
def World.toJSON (w : World) : WorldJSON :=
  { name := w.name, active := w.active,
    entities := (w.entities.filter (fun p => p.2.parent.isNone)).map
      (fun p => (p.1, entityToJSON p.2)) }

/-- Modelled from the spec: `BaseEntity.fromJSON` (not in the given
sources) restores the entity-local state (here: the active flag; the
name was fixed at construction). -/
def entityApplyJSON (j : EntityJSON) (e : Entity) : Entity :=
  { e with active := j.active }

/-- Modelled from the spec: `BaseEntity.addChild` (not in the given
sources) establishes the parent/child tree link between two registered
entities. -/
def World.addChildLink (w : World) (pid cid : String) : World :=
  let linked := updateEnt w.entities pid (fun e => { e with children := e.children ++ [cid] })
  { w with entities := updateEnt linked cid (fun e => { e with parent := some pid }) }

/-- Lookup in the snapshot-id-to-created-name map of `fromJSON`. -/
def findName : List (String × String) → String → Option String
  | [], _ => none
  | p :: r, k => if p.1 = k then some p.2 else findName r k

/-- World.fromJSON: warn (only) on a name mismatch, apply the active
flag, call `destroy()` on every currently-registered entity (the
registry itself is not cleared), then run the three reconstruction
passes over the incoming entity map: (a) create an entity per top-level
key via `createEntity`, remembering key ↦ created entity, (b) apply
each entity's own field data, (c) re-link parent/child edges by looking
each child id up in the key map (ids that resolve to no created entity
are skipped). Hook events are discarded here. -/
def World.fromJSON (w : World) (j : WorldJSON) : World :=
  let w0 := { w with active := j.active }
  let created := j.entities.foldl (fun (acc : World × List (String × String)) p =>
    ((acc.1.addEntity (mkEntity p.2.name)).1, acc.2 ++ [(p.1, p.2.name)])) (w0, [])
  let w1 := created.1
  let emap := created.2
  let w2 := j.entities.foldl (fun v p =>
    match findName emap p.1 with
    | some nm => { v with entities := updateEnt v.entities nm (entityApplyJSON p.2) }
    | none => v) w1
  j.entities.foldl (fun v p =>
    match findName emap p.1 with
    | some nm =>
      p.2.children.foldl (fun u cid =>
        match findName emap cid with
        | some cnm => u.addChildLink nm cnm
        | none => u) v
    | none => v) w2

/-! ## Helper lemmas -/

/-- A key present as a pair in the registry is found. -/
theorem findEnt_isSome_of_mem {l : List (String × Entity)} {p : String × Entity}
    (h : p ∈ l) : (findEnt l p.1).isSome = true := by
  induction l with
  | nil => cases h
  | cons q r ih =>
    by_cases hq : q.1 = p.1
    · simp [findEnt, hq]
    · rcases List.mem_cons.mp h with rfl | hr
      · exact absurd rfl hq
      · simp only [findEnt, if_neg hq]
        exact ih hr

/-- Folding an append-singleton accumulator is a map. -/
theorem foldl_snoc_eq_map {α β : Type} (f : α → β) (l : List α) (acc : List β) :
    l.foldl (fun a x => a ++ [f x]) acc = acc ++ l.map f := by
  induction l generalizing acc with
  | nil => simp
  | cons x r ih => simp [ih]

/-- The entity-destroy loop of `World.destroy` fires once per
snapshotted key when every key is (still) present. -/
theorem destroy_entEvs (full : List (String × Entity)) (ids : List String) (acc : List Ev)
    (h : ∀ id ∈ ids, (findEnt full id).isSome = true) :
    ids.foldl (fun acc id =>
      match findEnt full id with
      | some _ => acc ++ [Ev.entDestroy id]
      | none => acc) acc = acc ++ ids.map Ev.entDestroy := by
  induction ids generalizing acc with
  | nil => simp
  | cons x r ih =>
    obtain ⟨e, he⟩ := Option.isSome_iff_exists.mp (h x (List.mem_cons_self x r))
    simp only [List.foldl_cons, List.map_cons, he]
    rw [ih (acc ++ [Ev.entDestroy x]) (fun id hid => h id (List.mem_cons_of_mem x hid))]
    simp

/-- The enabled-system update loop, when no enabled system faults,
invokes exactly the enabled systems in list order. -/
theorem runSysUpdates_no_fault (l : List System)
    (h : ∀ s ∈ l, s.enabled = true → s.updateFaults = false) :
    runSysUpdates l = ((l.filter (fun s => s.enabled)).map (fun s => Ev.sysUpdate s.sysId), none) := by
  induction l with
  | nil => rfl
  | cons s r ih =>
    have hr := ih (fun t ht he => h t (List.mem_cons_of_mem s ht) he)
    by_cases hs : s.enabled = true
    · have hf := h s (List.mem_cons_self s r) hs
      simp [runSysUpdates, hs, hf, hr]
    · simp only [Bool.not_eq_true] at hs
      simp [runSysUpdates, hs, hr]

/-- The active-entity update loop, when no active entity faults, invokes
exactly the active entities in registry order. -/
theorem runEntUpdates_no_fault (l : List (String × Entity))
    (h : ∀ p ∈ l, p.2.active = true → p.2.updateFaults = false) :
    runEntUpdates l = ((l.filter (fun p => p.2.active)).map (fun p => Ev.entUpdate p.1), none) := by
  induction l with
  | nil => rfl
  | cons p r ih =>
    have hr := ih (fun q hq ha => h q (List.mem_cons_of_mem p hq) ha)
    by_cases hp : p.2.active = true
    · have hf := h p (List.mem_cons_self p r) hp
      simp [runEntUpdates, hp, hf, hr]
    · simp only [Bool.not_eq_true] at hp
      simp [runEntUpdates, hp, hr]

/-! ## Concrete material for witnesses and counterexamples -/

/-- A concrete system template: enabled, tracks nothing yet, compatible
with active entities, exposing every optional hook. -/
def mkSys (i : Nat) (nm : String) (pr : Int) : System :=
  { sysId := i, name := nm, priority := pr, enabled := true, tracked := [],
    compat := fun e => e.active, hasFixedUpdate := true, hasPreRender := true,
    hasPostRender := true, updateFaults := false }

/-- Root entity of the serialization example: parent of `B`. -/
def eA : Entity :=
  { name := "A", active := true, parent := none, children := ["B"], updateFaults := false }

/-- Child entity of the serialization example. -/
def eB : Entity :=
  { name := "B", active := true, parent := some "A", children := [], updateFaults := false }

/-- A world whose registry holds the two-entity tree `A → B`. -/
def wTree : World :=
  { mkWorld with entities := [("A", eA), ("B", eB)], sceneChildren := ["A", "B"] }

/-! ## C10 -/

/-- C10: a newly constructed World starts `active = true`,
`paused = false`, `initialized = false` with empty registry and system
list, and the four scheduling passes gate only on `active`/`paused`:
flipping `initialized` never changes what a pass does. -/
theorem c10_fresh_world_flags_and_gating :
    mkWorld.active = true ∧ mkWorld.paused = false ∧ mkWorld.initialized = false ∧
    mkWorld.entities = [] ∧ mkWorld.systems = [] ∧
    (∀ (w : World) (b : Bool),
      World.update { w with initialized := b } = World.update w ∧
      World.fixedUpdate { w with initialized := b } = World.fixedUpdate w ∧
      World.preRender { w with initialized := b } = World.preRender w ∧
      World.postRender { w with initialized := b } = World.postRender w) :=
  ⟨rfl, rfl, rfl, rfl, rfl, fun _ _ => ⟨rfl, rfl, rfl, rfl⟩⟩

/-! ## C9 -/

/-- C9: while a world is paused (or inactive) every scheduling pass
returns without invoking any hook (and without a fault escaping), and
`resume` after `pause` restores exactly the pre-pause state with
`paused = false`, so the passes dispatch as before the pause. -/
theorem c9_pause_suppresses_passes (w : World)
    (h : w.paused = true ∨ w.active = false) :
    w.update = ([], none) ∧ w.fixedUpdate = [] ∧ w.preRender = [] ∧ w.postRender = [] ∧
    (∀ v : World, v.pause.resume = { v with paused := false }) := by
  have hg : (!w.active || w.paused) = true := by
    rcases h with h | h <;> simp [h]
  refine ⟨?_, ?_, ?_, ?_, ?_⟩
  · simp [World.update, hg]
  · simp [World.fixedUpdate, hg]
  · simp [World.preRender, hg]
  · simp [World.postRender, hg]
  · intro v
    by_cases hv : v.paused <;> simp [World.pause, World.resume, hv]

/-- A concrete paused world holding one enabled system and one active
entity, for the C9 witness. -/
def wPausedC : World :=
  { mkWorld with
      paused := true, systems := [mkSys 1 "Sys" 10],
      entities := [("A", mkEntity "A")], sceneChildren := ["A"] }

/-- C9 witness: the suppression theorem applied to `wPausedC`. -/
theorem c9_witness :
    wPausedC.update = ([], none) ∧ wPausedC.fixedUpdate = [] ∧
    wPausedC.preRender = [] ∧ wPausedC.postRender = [] ∧
    (∀ v : World, v.pause.resume = { v with paused := false }) :=
  c9_pause_suppresses_passes wPausedC (Or.inl rfl)

/-! ## C6 -/

/-- C6: adding an entity whose name is already registered is a complete
no-op — the world (registry, scene, systems) is unchanged, nothing is
thrown, and no hook (system offer or `initialize`) is invoked. -/
theorem c6_duplicate_add_noop (w : World) (e : Entity)
    (h : hasEnt w.entities e.name = true) :
    w.addEntity e = (w, []) := by
  simp [World.addEntity, h]

/-- A world already holding an entity named `A`, for the C6 witness. -/
def w6 : World :=
  { mkWorld with
      entities := [("A", eA)], sceneChildren := ["A"],
      systems := [mkSys 1 "Sys" 10] }

/-- A second, different entity that reuses the name `A`. -/
def e6dup : Entity :=
  { name := "A", active := false, parent := none, children := [], updateFaults := false }

/-- C6 witness: the duplicate is rejected and the registry still maps
`A` to the original entity. -/
theorem c6_witness :
    w6.addEntity e6dup = (w6, []) ∧ findEnt w6.entities "A" = some eA ∧ e6dup ≠ eA :=
  ⟨c6_duplicate_add_noop w6 e6dup rfl, rfl, by decide⟩

/-! ## C7 -/

/-- C7: `removeEntity` returns `true` exactly when the id is registered;
on a hit it detaches the scene node, notifies every system
unconditionally, and erases the registry entry; on a miss it returns
`false` leaving everything untouched and invoking nothing. -/
theorem c7_remove_entity_spec (w : World) (id : String) :
    ((w.removeEntity id).2.1 = true ↔ hasEnt w.entities id = true) ∧
    (hasEnt w.entities id = false → w.removeEntity id = (w, false, [])) ∧
    (hasEnt w.entities id = true →
      (w.removeEntity id).1.entities = w.entities.filter (fun p => p.1 ≠ id) ∧
      (w.removeEntity id).1.sceneChildren = w.sceneChildren.filter (fun n => n ≠ id) ∧
      (w.removeEntity id).1.systems = w.systems.map (fun s =>
        { s with tracked := s.tracked.filter (fun n => n ≠ id) }) ∧
      (w.removeEntity id).2.2 = w.systems.map (fun s => Ev.sysRemoveEntity s.sysId id)) := by
  unfold World.removeEntity
  unfold hasEnt
  cases hfind : findEnt w.entities id <;> simp [hfind]

/-- A world with two entities and one system tracking both, for the C7
witness. -/
def w7 : World :=
  { mkWorld with
      entities := [("A", eA), ("B", eB)], sceneChildren := ["A", "B"],
      systems := [{ mkSys 1 "Sys" 10 with tracked := ["A", "B"] }] }

/-- C7 witness: removing `A` succeeds with the expected registry, scene,
tracked-subset and notification effects; removing the unknown `Z` is a
silent no-op returning `false`. -/
theorem c7_witness :
    (w7.removeEntity "A").2.1 = true ∧
    (w7.removeEntity "A").1.entities = [("B", eB)] ∧
    (w7.removeEntity "A").1.sceneChildren = ["B"] ∧
    (w7.removeEntity "A").1.systems.map (fun s => s.tracked) = [["B"]] ∧
    (w7.removeEntity "A").2.2 = [Ev.sysRemoveEntity 1 "A"] ∧
    w7.removeEntity "Z" = (w7, false, []) := by
  have h := (c7_remove_entity_spec w7 "A").2.2 rfl
  have h1 := (c7_remove_entity_spec w7 "A").1.mpr rfl
  have h2 := (c7_remove_entity_spec w7 "Z").2.1 rfl
  refine ⟨h1, h.1.trans (by decide), h.2.1.trans (by decide), ?_, h.2.2.2.trans (by decide), h2⟩
  rw [h.2.2.1]
  decide

/-! ## C5 -/

/-- C5: after `destroy()` the registry, system list and scene root are
empty, `active = false`, `initialized = false`, and `destroy()` was
invoked on every previously-registered entity (in registry order) and
then on every system (in list order). -/
theorem c5_destroy_clears_world (w : World) :
    (w.destroy).1.entities = [] ∧ (w.destroy).1.systems = [] ∧
    (w.destroy).1.sceneChildren = [] ∧ (w.destroy).1.active = false ∧
    (w.destroy).1.initialized = false ∧
    (w.destroy).2 = w.entities.map (fun p => Ev.entDestroy p.1) ++
      w.systems.map (fun s => Ev.sysDestroy s.sysId) := by
  refine ⟨rfl, rfl, rfl, rfl, rfl, ?_⟩
  show (let entityIds := w.entities.map (fun p => p.1)
    let entEvs := entityIds.foldl (fun acc id =>
      match findEnt w.entities id with
      | some _ => acc ++ [Ev.entDestroy id]
      | none => acc) ([] : List Ev)
    let sysEvs := w.systems.foldl (fun acc s => acc ++ [Ev.sysDestroy s.sysId]) ([] : List Ev)
    entEvs ++ sysEvs) = _
  have hids : ∀ id ∈ w.entities.map (fun p => p.1), (findEnt w.entities id).isSome = true := by
    intro id hid
    obtain ⟨p, hp, rfl⟩ := List.mem_map.mp hid
    exact findEnt_isSome_of_mem hp
  simp only [destroy_entEvs w.entities _ _ hids,
    foldl_snoc_eq_map (fun s => Ev.sysDestroy s.sysId) w.systems, List.nil_append,
    List.map_map]
  rfl

/-! ## C8 -/

/-- C8: on an active, unpaused world whose invoked hooks do not fault,
one `update(dt)` pass invokes exactly the enabled systems (in list
order) and then exactly the active entities (in registry insertion
order); disabled systems and inactive entities are skipped, and every
system hook precedes every entity hook. -/
theorem c8_update_order (w : World)
    (ha : w.active = true) (hp : w.paused = false)
    (hs : ∀ s ∈ w.systems, s.enabled = true → s.updateFaults = false)
    (he : ∀ p ∈ w.entities, p.2.active = true → p.2.updateFaults = false) :
    w.update = ((w.systems.filter (fun s => s.enabled)).map (fun s => Ev.sysUpdate s.sysId) ++
      (w.entities.filter (fun p => p.2.active)).map (fun p => Ev.entUpdate p.1), none) := by
  unfold World.update
  rw [runSysUpdates_no_fault w.systems hs, runEntUpdates_no_fault w.entities he]
  simp [ha, hp]

/-- A fine entity named `A`. -/
def entOkA : Entity := mkEntity "A"

/-- An inactive entity named `B`. -/
def entOffB : Entity := { mkEntity "B" with active := false }

/-- A world with an enabled system, a disabled system, an active entity
and an inactive entity, for the C8 witness. -/
def w8 : World :=
  { mkWorld with
      systems := [mkSys 1 "S1" 10, { mkSys 2 "S2" 20 with enabled := false }],
      entities := [("A", entOkA), ("B", entOffB)], sceneChildren := ["A", "B"] }

/-- C8 witness: the disabled system and the inactive entity are skipped,
and the enabled system runs before the active entity. -/
theorem c8_witness :
    w8.update = ([Ev.sysUpdate 1, Ev.entUpdate "A"], none) := by
  have hs : ∀ s ∈ w8.systems, s.enabled = true → s.updateFaults = false := by
    intro s hmem
    rcases List.mem_cons.mp hmem with rfl | hmem
    · intro _; rfl
    · rcases List.mem_cons.mp hmem with rfl | hmem
      · intro _; rfl
      · cases hmem
  have he : ∀ p ∈ w8.entities, p.2.active = true → p.2.updateFaults = false := by
    intro p hmem
    rcases List.mem_cons.mp hmem with rfl | hmem
    · intro _; rfl
    · rcases List.mem_cons.mp hmem with rfl | hmem
      · intro _; rfl
      · cases hmem
  exact (c8_update_order w8 rfl rfl hs he).trans (by rfl)

/-! ## C3 -/

/-- An entity whose `update` hook throws. -/
def entFaulty : Entity := { mkEntity "E1" with updateFaults := true }

/-- A well-behaved sibling entity. -/
def entFine : Entity := mkEntity "E2"

/-- An active, unpaused world holding the faulting entity `E1` followed
by the healthy entity `E2`. -/
def cw3 : World :=
  { mkWorld with
      entities := [("E1", entFaulty), ("E2", entFine)], sceneChildren := ["E1", "E2"] }

/-- C3 (failing input): `World.update` wraps no hook invocation in a
try/catch, so when the registered, active entity `E1` throws during the
pass, the fault escapes `World.update` and its registered, active
sibling `E2` is never updated in that frame — the fault is neither
contained nor isolated to the faulting item. -/
theorem c3_fault_aborts_frame :
    cw3.update = ([Ev.entUpdate "E1"], some (Fault.ent "E1")) ∧
    Ev.entUpdate "E2" ∉ cw3.update.1 ∧
    entFine.active = true ∧ cw3.active = true ∧ cw3.paused = false := by
  decide

/-! ## C1 -/

/-- C1 (failing input): the snapshot of the two-entity tree `A → B`
keys only the root `A` (as the claim says), but `fromJSON` builds
entities only for those top-level keys and resolves child ids against
them, so on a fresh world the round trip recreates `A` alone: the child
`B` and the edge `A → B` are lost and the restored tree is not
isomorphic to the original. -/
theorem c1_roundtrip_drops_children :
    (wTree.toJSON).entities.map (fun p => p.1) = ["A"] ∧
    wTree.entities.map (fun p => p.1) = ["A", "B"] ∧
    findEnt wTree.entities "B" = some eB ∧ eB.parent = some "A" ∧
    (World.fromJSON mkWorld wTree.toJSON).entities.map (fun p => p.1) = ["A"] ∧
    findEnt (World.fromJSON mkWorld wTree.toJSON).entities "B" = none ∧
    (World.fromJSON mkWorld wTree.toJSON).entities.map (fun p => p.2.children) = [[]] := by
  decide

/-! ## C4: sortedness and stability of the system list -/

/-- Ascending-priority ordering between systems. -/
def sysLe (a b : System) : Prop := a.priority ≤ b.priority

/-- Insertion of a later-registered system: it lands after every
already-present system of equal priority (what appending then running a
stable sort does). -/
def insertLast (s : System) : List System → List System
  | [] => [s]
  | t :: ts => if s.priority < t.priority then s :: t :: ts else t :: insertLast s ts

/-- `insertSys` permutes: it only chooses a position. -/
theorem insertSys_perm (s : System) (l : List System) : List.Perm (insertSys s l) (s :: l) := by
  induction l with
  | nil => exact List.Perm.refl _
  | cons t ts ih =>
    by_cases h : s.priority ≤ t.priority
    · simp [insertSys, h]
    · simp only [insertSys, if_neg h]
      exact (ih.cons t).trans (List.Perm.swap s t ts)

/-- The system sort permutes its input. -/
theorem sortSystems_perm (l : List System) : List.Perm (sortSystems l) l := by
  induction l with
  | nil => exact List.Perm.refl _
  | cons t ts ih =>
    exact (insertSys_perm t (sortSystems ts)).trans (ih.cons t)

/-- `insertSys` preserves ascending-priority sortedness. -/
theorem insertSys_sorted {l : List System} (s : System) (h : l.Pairwise sysLe) :
    (insertSys s l).Pairwise sysLe := by
  induction l with
  | nil => simp [insertSys, List.pairwise_singleton]
  | cons t ts ih =>
    rcases List.pairwise_cons.mp h with ⟨ht, hts⟩
    by_cases hle : s.priority ≤ t.priority
    · simp only [insertSys, if_pos hle]
      refine List.pairwise_cons.mpr ⟨?_, h⟩
      intro u hu
      rcases List.mem_cons.mp hu with rfl | hu
      · exact hle
      · exact le_trans hle (ht u hu)
    · simp only [insertSys, if_neg hle]
      refine List.pairwise_cons.mpr ⟨?_, ih hts⟩
      intro u hu
      rcases List.mem_cons.mp ((insertSys_perm s ts).mem_iff.mp hu) with rfl | hu
      · exact le_of_not_le hle
      · exact ht u hu

/-- The system sort sorts by ascending priority. -/
theorem sortSystems_sorted (l : List System) : (sortSystems l).Pairwise sysLe := by
  induction l with
  | nil => exact List.Pairwise.nil
  | cons t ts ih => exact insertSys_sorted t ih

/-- Sorting an already-sorted system list is the identity. -/
theorem sortSystems_eq_of_sorted {l : List System} (h : l.Pairwise sysLe) :
    sortSystems l = l := by
  induction l with
  | nil => rfl
  | cons t ts ih =>
    rcases List.pairwise_cons.mp h with ⟨ht, hts⟩
    show insertSys t (sortSystems ts) = t :: ts
    rw [ih hts]
    cases ts with
    | nil => rfl
    | cons u us =>
      have : t.priority ≤ u.priority := ht u (List.mem_cons_self u us)
      simp [insertSys, this]

/-- The system sort is idempotent. -/
theorem sortSystems_idem (l : List System) :
    sortSystems (sortSystems l) = sortSystems l :=
  sortSystems_eq_of_sorted (sortSystems_sorted l)

/-- Early insertion commutes with late insertion. -/
theorem insertSys_insertLast_comm (a s : System) (m : List System) :
    insertSys a (insertLast s m) = insertLast s (insertSys a m) := by
  induction m with
  | nil =>
    by_cases h : a.priority ≤ s.priority
    · have h2 : ¬ s.priority < a.priority := not_lt.mpr h
      simp [insertSys, insertLast, h, h2]
    · have h2 : s.priority < a.priority := lt_of_not_le h
      simp [insertSys, insertLast, h, h2]
  | cons t ts ih =>
    by_cases hst : s.priority < t.priority
    · by_cases hat : a.priority ≤ t.priority
      · by_cases has : a.priority ≤ s.priority
        · have h1 : ¬ s.priority < a.priority := not_lt.mpr has
          simp [insertSys, insertLast, hst, hat, has, h1]
        · have h1 : s.priority < a.priority := lt_of_not_le has
          simp [insertSys, insertLast, hst, hat, has, h1]
      · have has : ¬ a.priority ≤ s.priority := fun hc =>
          hat (le_of_lt (lt_of_le_of_lt hc hst))
        have h1 : s.priority < a.priority := lt_of_not_le has
        simp [insertSys, insertLast, hst, hat, has, h1]
    · by_cases hat : a.priority ≤ t.priority
      · have has : a.priority ≤ s.priority := le_trans hat (not_lt.mp hst)
        have h1 : ¬ s.priority < a.priority := not_lt.mpr has
        simp [insertSys, insertLast, hst, hat, has, h1]
      · simp only [insertLast, if_neg hst, insertSys, if_neg hat]
        rw [ih]

/-- Appending one system and stably sorting inserts it after its
equal-priority block. -/
theorem sortSystems_append_single (l : List System) (s : System) :
    sortSystems (l ++ [s]) = insertLast s (sortSystems l) := by
  induction l with
  | nil => rfl
  | cons t ts ih =>
    show insertSys t (sortSystems (ts ++ [s])) = insertLast s (insertSys t (sortSystems ts))
    rw [ih, insertSys_insertLast_comm]

/-- Erasing an identity that occurs nowhere is the identity. -/
theorem eraseSys_of_no_match {l : List System} {i : Nat}
    (h : ∀ t ∈ l, t.sysId ≠ i) : eraseSys l i = l := by
  induction l with
  | nil => rfl
  | cons t ts ih =>
    have ht := h t (List.mem_cons_self t ts)
    simp only [eraseSys, if_neg ht]
    rw [ih (fun u hu => h u (List.mem_cons_of_mem t hu))]

/-- `eraseSys` yields a sublist. -/
theorem eraseSys_sublist (l : List System) (i : Nat) : (eraseSys l i).Sublist l := by
  induction l with
  | nil => exact List.Sublist.refl _
  | cons t ts ih =>
    by_cases h : t.sysId = i
    · simp only [eraseSys, if_pos h]
      exact List.sublist_cons_self t ts
    · simp only [eraseSys, if_neg h]
      exact ih.cons₂ t

/-- Erasing the freshly inserted sole match recovers the list. -/
theorem eraseSys_insertSys_self {m : List System} {a : System} {i : Nat}
    (ha : a.sysId = i) (h : ∀ t ∈ m, t.sysId ≠ i) :
    eraseSys (insertSys a m) i = m := by
  induction m with
  | nil => simp [insertSys, eraseSys, ha]
  | cons t ts ih =>
    have ht := h t (List.mem_cons_self t ts)
    by_cases hle : a.priority ≤ t.priority
    · simp [insertSys, hle, eraseSys, ha]
    · simp only [insertSys, if_neg hle, eraseSys, if_neg ht]
      rw [ih (fun u hu => h u (List.mem_cons_of_mem t hu))]

/-- On a sorted list, inserting a non-matching system commutes with
erasing a given identity. -/
theorem eraseSys_insertSys_comm {m : List System} {a : System} {i : Nat}
    (ha : a.sysId ≠ i) (hm : m.Pairwise sysLe) :
    eraseSys (insertSys a m) i = insertSys a (eraseSys m i) := by
  induction m with
  | nil => simp [insertSys, eraseSys, ha]
  | cons t ts ih =>
    rcases List.pairwise_cons.mp hm with ⟨ht, hts⟩
    by_cases hle : a.priority ≤ t.priority
    · simp only [insertSys, if_pos hle, eraseSys, if_neg ha]
      by_cases hti : t.sysId = i
      · simp only [if_pos hti]
        cases ts with
        | nil => rfl
        | cons u us =>
          have hau : a.priority ≤ u.priority :=
            le_trans hle (ht u (List.mem_cons_self u us))
          simp [eraseSys, insertSys, hau]
      · simp [eraseSys, if_neg hti, insertSys, hle]
    · simp only [insertSys, if_neg hle]
      by_cases hti : t.sysId = i
      · simp [eraseSys, hti]
      · simp only [eraseSys, if_neg hti]
        rw [ih hts]
        simp [insertSys, if_neg hle]

/-- A list whose identities are distinct has at most one match. -/
theorem countP_le_one_of_nodup {l : List System} {i : Nat}
    (h : (l.map (fun s => s.sysId)).Nodup) :
    l.countP (fun t => t.sysId = i) ≤ 1 := by
  induction l with
  | nil => simp
  | cons t ts ih =>
    rcases List.nodup_cons.mp h with ⟨hni, hnd⟩
    by_cases hti : t.sysId = i
    · have hzero : ts.countP (fun t => t.sysId = i) = 0 := by
        rw [List.countP_eq_zero]
        intro u hu
        simp only [decide_eq_true_eq]
        intro hui
        exact hni (List.mem_map.mpr ⟨u, hu, by simp [hui, hti]⟩)
      rw [List.countP_cons_of_pos _ _ (by simp [hti]), hzero]
    · rw [List.countP_cons_of_neg _ _ (by simp [hti])]
      exact ih hnd

/-- For a list with at most one match, erasing by identity commutes
with the stable sort. -/
theorem sortSystems_eraseSys {l : List System} {i : Nat}
    (hc : l.countP (fun t => t.sysId = i) ≤ 1) :
    sortSystems (eraseSys l i) = eraseSys (sortSystems l) i := by
  induction l with
  | nil => rfl
  | cons a l' ih =>
    by_cases hai : a.sysId = i
    · have hzero : l'.countP (fun t => t.sysId = i) = 0 := by
        have := hc
        rw [List.countP_cons_of_pos _ _ (by simp [hai])] at this
        omega
      have hno : ∀ t ∈ l', t.sysId ≠ i := by
        rw [List.countP_eq_zero] at hzero
        intro t ht
        have := hzero t ht
        simpa using this
      have hno' : ∀ t ∈ sortSystems l', t.sysId ≠ i := fun t ht =>
        hno t ((sortSystems_perm l').mem_iff.mp ht)
      simp only [eraseSys, if_pos hai]
      show sortSystems l' = eraseSys (insertSys a (sortSystems l')) i
      rw [eraseSys_insertSys_self hai hno']
    · have hc' : l'.countP (fun t => t.sysId = i) ≤ 1 := by
        have := hc
        rw [List.countP_cons_of_neg _ _ (by simp [hai])] at this
        exact this
      simp only [eraseSys, if_neg hai]
      show insertSys a (sortSystems (eraseSys l' i)) =
        eraseSys (insertSys a (sortSystems l')) i
      rw [ih hc', eraseSys_insertSys_comm hai (sortSystems_sorted l')]

/-- One call of the system-registration API. -/
inductive SysOp where
  | add (s : System)
  | rem (sid : Nat)

/-- Apply one API call, keeping only the resulting world. -/
def stepOp (w : World) (op : SysOp) : World :=
  match op with
  | SysOp.add s => (w.addSystem s).1
  | SysOp.rem i => (w.removeSystem i).1

/-- Apply a whole call sequence to a freshly constructed world. -/
def applyOps (ops : List SysOp) : World :=
  ops.foldl stepOp mkWorld

/-- The systems surviving a call sequence, in registration order:
duplicate registrations are dropped, removals erase the first (only)
identity match. -/
def survStep (l : List System) (op : SysOp) : List System :=
  match op with
  | SysOp.add s => if l.any (fun t => t.sysId = s.sysId) then l else l ++ [s]
  | SysOp.rem i => eraseSys l i

/-- Registration-ordered survivors of a call sequence. -/
def survivors (ops : List SysOp) : List System :=
  ops.foldl survStep []

/-- Identity membership transfers along a permutation. -/
theorem any_sysId_eq_of_perm {l m : List System} (h : List.Perm l m) (i : Nat) :
    l.any (fun t => t.sysId = i) = m.any (fun t => t.sysId = i) := by
  by_cases hm : ∃ t ∈ l, t.sysId = i
  · obtain ⟨t, ht, hti⟩ := hm
    have h1 : l.any (fun t => t.sysId = i) = true :=
      List.any_eq_true.mpr ⟨t, ht, by simp [hti]⟩
    have h2 : m.any (fun t => t.sysId = i) = true :=
      List.any_eq_true.mpr ⟨t, h.mem_iff.mp ht, by simp [hti]⟩
    rw [h1, h2]
  · have h1 : l.any (fun t => t.sysId = i) = false := by
      rw [List.any_eq_false]
      intro t ht
      simp only [decide_eq_true_eq]
      exact fun hti => hm ⟨t, ht, hti⟩
    have h2 : m.any (fun t => t.sysId = i) = false := by
      rw [List.any_eq_false]
      intro t ht
      simp only [decide_eq_true_eq]
      exact fun hti => hm ⟨t, h.mem_iff.mpr ht, hti⟩
    rw [h1, h2]

/-- Invariant carried through a call sequence on an uninitialized world:
the live system list is the stable sort of the registration-ordered
survivors. -/
theorem foldl_stepOp_char (ops : List SysOp) (w : World) (l : List System)
    (hw : w.systems = sortSystems l) (hinit : w.initialized = false)
    (hnd : (l.map (fun s => s.sysId)).Nodup) :
    (ops.foldl stepOp w).systems = sortSystems (ops.foldl survStep l) := by
  induction ops generalizing w l with
  | nil => exact hw
  | cons op rest ih =>
    simp only [List.foldl_cons]
    cases op with
    | add s =>
      have hany : w.systems.any (fun t => t.sysId = s.sysId) =
          l.any (fun t => t.sysId = s.sysId) := by
        rw [hw]
        exact any_sysId_eq_of_perm (sortSystems_perm l) s.sysId
      by_cases hdup : l.any (fun t => t.sysId = s.sysId) = true
      · have hstep : stepOp w (SysOp.add s) = w := by
          simp [stepOp, World.addSystem, hany, hdup]
        have hsurv : survStep l (SysOp.add s) = l := by
          simp [survStep, hdup]
        rw [hstep, hsurv]
        exact ih w l hw hinit hnd
      · have hdup' : (w.systems.any (fun t => t.sysId = s.sysId)) = false := by
          rw [hany]
          exact Bool.not_eq_true _ ▸ (by simpa using hdup)
        have hstep : stepOp w (SysOp.add s) =
            { w with systems := sortSystems (w.systems ++ [s]) } := by
          simp [stepOp, World.addSystem, hdup', hinit]
        have hsurv : survStep l (SysOp.add s) = l ++ [s] := by
          simp [survStep, hdup]
        rw [hstep, hsurv]
        refine ih _ (l ++ [s]) ?_ hinit ?_
        · show sortSystems (w.systems ++ [s]) = sortSystems (l ++ [s])
          rw [hw, sortSystems_append_single, sortSystems_append_single,
            sortSystems_idem]
        · rw [List.map_append]
          refine List.Nodup.append hnd (List.nodup_singleton _) ?_
          intro x hx hmem
          have hpt : ∀ t ∈ l, ¬ t.sysId = s.sysId := by simpa using hdup
          obtain ⟨t, ht, rfl⟩ := List.mem_map.mp hx
          simp only [List.map_cons, List.map_nil, List.mem_singleton] at hmem
          exact hpt t ht hmem
    | rem i =>
      have hany : w.systems.any (fun t => t.sysId = i) =
          l.any (fun t => t.sysId = i) := by
        rw [hw]
        exact any_sysId_eq_of_perm (sortSystems_perm l) i
      have hstep : (stepOp w (SysOp.rem i)).systems = eraseSys w.systems i := by
        by_cases hin : w.systems.any (fun t => t.sysId = i) = true
        · simp [stepOp, World.removeSystem, hin]
        · have hfalse : w.systems.any (fun t => t.sysId = i) = false := by
            simpa using hin
          have hno : ∀ t ∈ w.systems, t.sysId ≠ i := by
            intro t ht
            have := List.any_eq_false.mp hfalse t ht
            simpa using this
          simp [stepOp, World.removeSystem, hfalse, eraseSys_of_no_match hno]
      have hstepinit : (stepOp w (SysOp.rem i)).initialized = false := by
        by_cases hin : w.systems.any (fun t => t.sysId = i) = true <;>
          simp [stepOp, World.removeSystem, hin, hinit]
      have hnd' : ((eraseSys l i).map (fun s => s.sysId)).Nodup :=
        List.Nodup.sublist ((eraseSys_sublist l i).map (fun s => s.sysId)) hnd
      show (rest.foldl stepOp (stepOp w (SysOp.rem i))).systems =
        sortSystems (rest.foldl survStep (eraseSys l i))
      refine ih (stepOp w (SysOp.rem i)) (eraseSys l i) ?_ hstepinit hnd'
      rw [hstep, hw, sortSystems_eraseSys (countP_le_one_of_nodup hnd)]

/-- Registration calls inserting priorities 30, 10, 20, in that order. -/
def opsPriorityExample : List SysOp :=
  [SysOp.add (mkSys 1 "S30" 30), SysOp.add (mkSys 2 "S10" 10), SysOp.add (mkSys 3 "S20" 20)]

/-- C4: after any sequence of `addSystem`/`removeSystem` calls the
system list equals the stable ascending-priority sort of the surviving
systems in registration order — so it is priority-sorted with ties in
insertion order, removal preserves the remaining order, the systems an
`update` pass would invoke (the enabled ones, in list order) carry
ascending priorities, and insertion order [30, 10, 20] is observed as
[10, 20, 30]. -/
theorem c4_systems_sorted_stable (ops : List SysOp) :
    (applyOps ops).systems = sortSystems (survivors ops) ∧
    ((applyOps ops).systems.map (fun s => s.priority)).Pairwise (fun a b => a ≤ b) ∧
    (((applyOps ops).systems.filter (fun s => s.enabled)).map (fun s => s.priority)).Pairwise
      (fun a b => a ≤ b) ∧
    (applyOps opsPriorityExample).systems.map (fun s => s.priority) = [10, 20, 30] := by
  have hchar : (applyOps ops).systems = sortSystems (survivors ops) :=
    foldl_stepOp_char ops mkWorld [] rfl rfl (by simp)
  have hsorted : (applyOps ops).systems.Pairwise sysLe := by
    rw [hchar]
    exact sortSystems_sorted _
  refine ⟨hchar, ?_, ?_, ?_⟩
  · exact List.pairwise_map.mpr hsorted
  · exact List.pairwise_map.mpr (hsorted.sublist (List.filter_sublist _))
  · decide

/-! ## C2: tracked subsets and registration order -/

/-- Register a batch of entities, left to right. -/
def addEntities (w : World) (es : List Entity) : World :=
  es.foldl (fun v e => (v.addEntity e).1) w

/-- The tracked subset of the (unique) system with the given identity. -/
def trackedOf (w : World) (i : Nat) : Option (List String) :=
  (w.systems.find? (fun s => s.sysId = i)).map (fun s => s.tracked)

/-- Register the system first, then the entities. -/
def sysThenEnts (w : World) (s : System) (es : List Entity) : World :=
  addEntities (w.addSystem s).1 es

/-- Register the entities first, then the system. -/
def entsThenSys (w : World) (s : System) (es : List Entity) : World :=
  ((addEntities w es).addSystem s).1

/-- `addEntity` never touches the `initialized` flag. -/
theorem addEntity_initialized (w : World) (e : Entity) :
    ((w.addEntity e).1).initialized = w.initialized := by
  unfold World.addEntity
  by_cases h : hasEnt w.entities e.name = true <;> simp [h]

/-- Neither does a batch registration. -/
theorem addEntities_initialized (es : List Entity) (w : World) :
    (addEntities w es).initialized = w.initialized := by
  induction es generalizing w with
  | nil => rfl
  | cons e r ih =>
    show (addEntities ((w.addEntity e).1) r).initialized = _
    rw [ih, addEntity_initialized]

/-- A successful `addEntity` maps each system through the compatibility
offer. -/
theorem addEntity_systems (w : World) (e : Entity)
    (h : hasEnt w.entities e.name = false) :
    ((w.addEntity e).1).systems =
      w.systems.map (fun s => if s.compat e then s.trackEntity e else s) := by
  unfold World.addEntity
  simp only [h, Bool.false_eq_true, if_false, List.map_map]
  refine List.map_congr_left ?_
  intro s _
  by_cases hc : s.compat e = true <;> simp [hc]

/-- A successful `addEntity` appends the new registry pair. -/
theorem addEntity_entities (w : World) (e : Entity)
    (h : hasEnt w.entities e.name = false) :
    ((w.addEntity e).1).entities = w.entities ++ [(e.name, e)] := by
  unfold World.addEntity
  simp [h]

/-- System identities survive `addEntity` untouched. -/
theorem addEntity_sysIds (w : World) (e : Entity) :
    ((w.addEntity e).1).systems.map (fun s => s.sysId) =
      w.systems.map (fun s => s.sysId) := by
  by_cases h : hasEnt w.entities e.name = true
  · unfold World.addEntity
    simp [h]
  · rw [addEntity_systems w e (by simpa using h), List.map_map]
    refine List.map_congr_left ?_
    intro s _
    by_cases hc : s.compat e = true <;> simp [hc, System.trackEntity]

/-- System identities survive a batch registration untouched. -/
theorem addEntities_sysIds (es : List Entity) (w : World) :
    (addEntities w es).systems.map (fun s => s.sysId) =
      w.systems.map (fun s => s.sysId) := by
  induction es generalizing w with
  | nil => rfl
  | cons e r ih =>
    show (addEntities ((w.addEntity e).1) r).systems.map (fun s => s.sysId) = _
    rw [ih, addEntity_sysIds]

/-- `addSystem` never touches the registry. -/
theorem addSystem_entities (w : World) (s : System) :
    ((w.addSystem s).1).entities = w.entities := by
  unfold World.addSystem
  by_cases h1 : w.systems.any (fun t => t.sysId = s.sysId) = true <;>
    by_cases h2 : w.initialized = true <;> simp [h1, h2]

/-- Keyed lookup distributes over appending one fresh pair. -/
theorem hasEnt_append_single (l : List (String × Entity)) (n : String) (x : Entity)
    (k : String) :
    hasEnt (l ++ [(n, x)]) k = (hasEnt l k || decide (n = k)) := by
  induction l with
  | nil =>
    simp only [List.nil_append, hasEnt, findEnt]
    by_cases hn : n = k <;> simp [hn]
  | cons p r ih =>
    by_cases hp : p.1 = k
    · simp [hasEnt, findEnt, hp]
    · simp only [List.cons_append, hasEnt, findEnt, if_neg hp]
      exact ih

/-- Registering a batch of distinctly, freshly named entities appends
their pairs to the registry in order. -/
theorem addEntities_entities (E : List Entity) (w : World)
    (hfresh : ∀ e ∈ E, hasEnt w.entities e.name = false)
    (hnd : (E.map (fun e => e.name)).Nodup) :
    (addEntities w E).entities = w.entities ++ E.map (fun e => (e.name, e)) := by
  induction E generalizing w with
  | nil => simp [addEntities]
  | cons e r ih =>
    have hfr := hfresh e (List.mem_cons_self e r)
    have hnd' := hnd
    rw [List.map_cons, List.nodup_cons] at hnd'
    obtain ⟨hnotin, hndr⟩ := hnd'
    have hfresh' : ∀ x ∈ r, hasEnt ((w.addEntity e).1).entities x.name = false := by
      intro x hx
      rw [addEntity_entities w e hfr, hasEnt_append_single]
      have hx1 : hasEnt w.entities x.name = false := hfresh x (List.mem_cons_of_mem e hx)
      have hx2 : ¬ e.name = x.name := by
        intro hcontra
        exact hnotin (by rw [hcontra]; exact List.mem_map.mpr ⟨x, hx, rfl⟩)
      simp [hx1, hx2]
    show (addEntities ((w.addEntity e).1) r).entities = _
    rw [ih ((w.addEntity e).1) hfresh' hndr, addEntity_entities w e hfr]
    simp

/-- `find?` by identity and mapping by an identity-preserving function
commute. -/
theorem find?_map_sysId_pres (l : List System) (i : Nat) (f : System → System)
    (hf : ∀ s, (f s).sysId = s.sysId) :
    (l.map f).find? (fun t => t.sysId = i) =
      (l.find? (fun t => t.sysId = i)).map f := by
  induction l with
  | nil => rfl
  | cons s r ih =>
    by_cases h : s.sysId = i
    · rw [List.map_cons, List.find?_cons_of_pos _ (by simp [hf, h]),
        List.find?_cons_of_pos _ (by simp [h])]
      rfl
    · rw [List.map_cons, List.find?_cons_of_neg _ (by simp [hf, h]),
        List.find?_cons_of_neg _ (by simp [h]), ih]

/-- `find?` returns the sole identity match. -/
theorem find?_sysId_unique (l : List System) (i : Nat) (x : System)
    (hx : x ∈ l) (hxi : x.sysId = i) (huniq : ∀ y ∈ l, y.sysId = i → y = x) :
    l.find? (fun t => t.sysId = i) = some x := by
  induction l with
  | nil => cases hx
  | cons s r ih =>
    by_cases h : s.sysId = i
    · have hsx : s = x := huniq s (List.mem_cons_self s r) h
      subst hsx
      exact List.find?_cons_of_pos _ (by simp [h])
    · rcases List.mem_cons.mp hx with rfl | hx'
      · exact absurd hxi h
      · rw [List.find?_cons_of_neg _ (by simp [h])]
        exact ih hx' (fun y hy hyi => huniq y (List.mem_cons_of_mem s hy) hyi)

/-- One successful `addEntity` step, seen through the identity lookup:
the found system is offered the entity. -/
theorem addEntity_find?_offer (w : World) (e : Entity) (i : Nat)
    (h : hasEnt w.entities e.name = false) :
    ((w.addEntity e).1).systems.find? (fun t => t.sysId = i) =
      (w.systems.find? (fun t => t.sysId = i)).map
        (fun s => if s.compat e then s.trackEntity e else s) := by
  rw [addEntity_systems w e h]
  refine find?_map_sysId_pres _ _ _ ?_
  intro s
  by_cases hc : s.compat e = true <;> simp [hc, System.trackEntity]

/-- The seeding fold of `addSystem` keeps the system's identity. -/
theorem seedFold_sysId (pairs : List (String × Entity)) (acc : System × List Ev) :
    (pairs.foldl (fun acc p =>
      if acc.1.compat p.2 then
        (acc.1.trackEntity p.2, acc.2 ++ [Ev.sysAddEntity acc.1.sysId p.2.name])
      else acc) acc).1.sysId = acc.1.sysId := by
  induction pairs generalizing acc with
  | nil => rfl
  | cons p r ih =>
    simp only [List.foldl_cons]
    by_cases hc : acc.1.compat p.2 = true
    · rw [if_pos hc, ih]
      rfl
    · rw [if_neg hc, ih]

/-- The seeding fold of `addSystem`, applied to distinctly named
entities none of which is already tracked, appends exactly the names
of the compatible ones. -/
theorem seedFold_tracked (pairs : List (String × Entity)) (S : System) (evs : List Ev)
    (hnd : (pairs.map (fun p => p.2.name)).Nodup)
    (htr : ∀ p ∈ pairs, p.2.name ∉ S.tracked) :
    (pairs.foldl (fun acc p =>
      if acc.1.compat p.2 then
        (acc.1.trackEntity p.2, acc.2 ++ [Ev.sysAddEntity acc.1.sysId p.2.name])
      else acc) (S, evs)).1 =
    { S with tracked := S.tracked ++
        ((pairs.filter (fun p => S.compat p.2)).map (fun p => p.2.name)) } := by
  induction pairs generalizing S evs with
  | nil => simp
  | cons p r ih =>
    have hpn := htr p (List.mem_cons_self p r)
    have hnd' := hnd
    rw [List.map_cons, List.nodup_cons] at hnd'
    obtain ⟨hnotin, hndr⟩ := hnd'
    by_cases hc : S.compat p.2 = true
    · have hS' : S.trackEntity p.2 = { S with tracked := S.tracked ++ [p.2.name] } := by
        simp [System.trackEntity, hpn]
      have htr' : ∀ q ∈ r, q.2.name ∉ (S.tracked ++ [p.2.name]) := by
        intro q hq
        rw [List.mem_append]
        rintro (hin | hin)
        · exact htr q (List.mem_cons_of_mem p hq) hin
        · rw [List.mem_singleton] at hin
          exact hnotin (by rw [← hin]; exact List.mem_map.mpr ⟨q, hq, rfl⟩)
      simp only [List.foldl_cons, hc, if_true, hS']
      rw [ih { S with tracked := S.tracked ++ [p.2.name] } _ hndr htr']
      simp [List.filter_cons, hc, List.append_assoc]
    · have hcb : S.compat p.2 = false := by simpa using hc
      simp only [List.foldl_cons, hcb, Bool.false_eq_true, if_false]
      rw [ih S evs hndr (fun q hq => htr q (List.mem_cons_of_mem p hq))]
      simp [List.filter_cons, hcb]

/-- Registering a fresh system on an initialized world: the identity
lookup finds exactly the seeded copy of the new system. -/
theorem addSystem_seeded_find? (w : World) (S : System)
    (hinit : w.initialized = true)
    (hid : ∀ t ∈ w.systems, t.sysId ≠ S.sysId) :
    ((w.addSystem S).1).systems.find? (fun t => t.sysId = S.sysId) =
      some (w.entities.foldl (fun acc p =>
        if acc.1.compat p.2 then
          (acc.1.trackEntity p.2, acc.2 ++ [Ev.sysAddEntity acc.1.sysId p.2.name])
        else acc) (S, ([] : List Ev))).1 := by
  have hany : w.systems.any (fun t => t.sysId = S.sysId) = false := by
    rw [List.any_eq_false]
    intro t ht
    simpa using hid t ht
  have hsys : ((w.addSystem S).1).systems =
      (sortSystems (w.systems ++ [S])).map
        (fun t => if t.sysId = S.sysId then
          (w.entities.foldl (fun acc p =>
            if acc.1.compat p.2 then
              (acc.1.trackEntity p.2, acc.2 ++ [Ev.sysAddEntity acc.1.sysId p.2.name])
            else acc) (S, ([] : List Ev))).1 else t) := by
    unfold World.addSystem
    simp [hany, hinit]
  set seeded1 := (w.entities.foldl (fun acc p =>
    if acc.1.compat p.2 then
      (acc.1.trackEntity p.2, acc.2 ++ [Ev.sysAddEntity acc.1.sysId p.2.name])
    else acc) (S, ([] : List Ev))).1 with hseed
  have hsid : seeded1.sysId = S.sysId := seedFold_sysId w.entities (S, [])
  have hSmem : S ∈ sortSystems (w.systems ++ [S]) :=
    (sortSystems_perm (w.systems ++ [S])).mem_iff.mpr
      (List.mem_append.mpr (Or.inr (List.mem_singleton.mpr rfl)))
  rw [hsys]
  refine find?_sysId_unique _ _ seeded1 ?_ hsid ?_
  · exact List.mem_map.mpr ⟨S, hSmem, by simp⟩
  · intro y hy hyi
    obtain ⟨t, ht, hti⟩ := List.mem_map.mp hy
    by_cases hts : t.sysId = S.sysId
    · rw [if_pos hts] at hti
      exact hti.symm
    · rw [if_neg hts] at hti
      rcases List.mem_append.mp ((sortSystems_perm (w.systems ++ [S])).mem_iff.mp ht) with
        htw | htS
      · exact absurd (hti ▸ hyi) (hid t htw)
      · rw [List.mem_singleton] at htS
        exact absurd (htS ▸ rfl) hts

/-- Registering distinctly, freshly named entities one by one grows the
tracked subset of an already-found system by exactly the names of the
compatible ones, in registration order. -/
theorem addEntities_find?_tracked (E : List Entity) (w : World) (i : Nat) (S0 : System)
    (hfind : w.systems.find? (fun t => t.sysId = i) = some S0)
    (hfresh : ∀ e ∈ E, hasEnt w.entities e.name = false)
    (hnd : (E.map (fun e => e.name)).Nodup)
    (htr : ∀ e ∈ E, e.name ∉ S0.tracked) :
    (addEntities w E).systems.find? (fun t => t.sysId = i) =
      some { S0 with tracked := S0.tracked ++
        ((E.filter (fun e => S0.compat e)).map (fun e => e.name)) } := by
  induction E generalizing w S0 with
  | nil => simpa using hfind
  | cons e r ih =>
    have hfr := hfresh e (List.mem_cons_self e r)
    have hen := htr e (List.mem_cons_self e r)
    have hnd' := hnd
    rw [List.map_cons, List.nodup_cons] at hnd'
    obtain ⟨hnotin, hndr⟩ := hnd'
    have hstep := addEntity_find?_offer w e i hfr
    rw [hfind] at hstep
    simp only [Option.map_some'] at hstep
    have hfresh' : ∀ x ∈ r, hasEnt ((w.addEntity e).1).entities x.name = false := by
      intro x hx
      rw [addEntity_entities w e hfr, hasEnt_append_single]
      have hx1 : hasEnt w.entities x.name = false := hfresh x (List.mem_cons_of_mem e hx)
      have hx2 : ¬ e.name = x.name := by
        intro hcontra
        exact hnotin (by rw [hcontra]; exact List.mem_map.mpr ⟨x, hx, rfl⟩)
      simp [hx1, hx2]
    show (addEntities ((w.addEntity e).1) r).systems.find? (fun t => t.sysId = i) = _
    by_cases hc : S0.compat e = true
    · have hS' : S0.trackEntity e = { S0 with tracked := S0.tracked ++ [e.name] } := by
        simp [System.trackEntity, hen]
      rw [if_pos hc, hS'] at hstep
      have htr' : ∀ x ∈ r, x.name ∉ (S0.tracked ++ [e.name]) := by
        intro x hx
        rw [List.mem_append]
        rintro (hin | hin)
        · exact htr x (List.mem_cons_of_mem e hx) hin
        · rw [List.mem_singleton] at hin
          exact hnotin (by rw [← hin]; exact List.mem_map.mpr ⟨x, hx, rfl⟩)
      rw [ih ((w.addEntity e).1) { S0 with tracked := S0.tracked ++ [e.name] }
        hstep hfresh' hndr htr']
      simp [List.filter_cons, hc, List.append_assoc]
    · have hcb : S0.compat e = false := by simpa using hc
      rw [if_neg hc] at hstep
      rw [ih ((w.addEntity e).1) S0 hstep hfresh' hndr
        (fun x hx => htr x (List.mem_cons_of_mem e hx))]
      simp [List.filter_cons, hcb]

/-- Names of the compatible pairs are the names of the compatible
entities. -/
theorem filterPair_names (E : List Entity) (c : Entity → Bool) :
    ((E.map (fun e => (e.name, e))).filter (fun p => c p.2)).map (fun p => p.2.name) =
      (E.filter (fun e => c e)).map (fun e => e.name) := by
  induction E with
  | nil => rfl
  | cons e r ih =>
    by_cases hc : c e = true <;> simp [List.filter_cons, hc, ih]

/-- C2 (amended: the world must already be initialized, since `addSystem`
seeds a tracked subset only then and `initialize()` never seeds): for an
initialized world with an empty registry, registering a fresh system `S`
and a set of distinctly named entities `E` in either order leaves `S`
tracking exactly the names of the compatible entities of `E`, in
registration order. -/
theorem c2_tracked_subset_order_independent_when_initialized
    (w : World) (S : System) (E : List Entity)
    (hinit : w.initialized = true) (hent : w.entities = [])
    (hid : ∀ t ∈ w.systems, t.sysId ≠ S.sysId)
    (htr : S.tracked = [])
    (hnames : (E.map (fun e => e.name)).Nodup) :
    trackedOf (sysThenEnts w S E) S.sysId =
      some ((E.filter (fun e => S.compat e)).map (fun e => e.name)) ∧
    trackedOf (entsThenSys w S E) S.sysId =
      some ((E.filter (fun e => S.compat e)).map (fun e => e.name)) := by
  constructor
  · have hfind1 : ((w.addSystem S).1).systems.find? (fun t => t.sysId = S.sysId) =
        some S := by
      have h := addSystem_seeded_find? w S hinit hid
      rw [hent] at h
      exact h
    have hfresh : ∀ e ∈ E, hasEnt ((w.addSystem S).1).entities e.name = false := by
      intro e _
      rw [addSystem_entities, hent]
      rfl
    have h2 := addEntities_find?_tracked E ((w.addSystem S).1) S.sysId S hfind1 hfresh
      hnames (by rw [htr]; intro e _; exact List.not_mem_nil _)
    unfold sysThenEnts trackedOf
    rw [h2]
    simp [htr]
  · have hfreshw : ∀ e ∈ E, hasEnt w.entities e.name = false := by
      intro e _
      rw [hent]
      rfl
    have hinit' : (addEntities w E).initialized = true := by
      rw [addEntities_initialized, hinit]
    have hid' : ∀ t ∈ (addEntities w E).systems, t.sysId ≠ S.sysId := by
      intro t ht hcontra
      have hmem : t.sysId ∈ (addEntities w E).systems.map (fun s => s.sysId) :=
        List.mem_map.mpr ⟨t, ht, rfl⟩
      rw [addEntities_sysIds] at hmem
      obtain ⟨u, hu, huid⟩ := List.mem_map.mp hmem
      exact hid u hu (by rw [huid, hcontra])
    have h := addSystem_seeded_find? (addEntities w E) S hinit' hid'
    rw [addEntities_entities E w hfreshw hnames, hent, List.nil_append] at h
    rw [seedFold_tracked (E.map (fun e => (e.name, e))) S []
      (by simpa using hnames)
      (by rw [htr]; intro p _; exact List.not_mem_nil _)] at h
    unfold entsThenSys trackedOf
    rw [h, htr]
    simp [filterPair_names]

/-- The tracking system of the C2 counterexample. -/
def c2sys : System := mkSys 5 "Track" 10

/-- The compatible entity of the C2 counterexample. -/
def c2ent : Entity := mkEntity "E1"

/-- C2 counterexample: on a freshly constructed, still-uninitialized
world the claimed order-independence fails — adding the compatible
entity `E1` first and the system second leaves the system's tracked
subset empty (`addSystem` seeds only when the world is initialized,
and `initialize()` never seeds), while the opposite order tracks `E1`:
the two final subsets differ, and one is not the compatible subset. -/
theorem c2_order_dependence_cex :
    mkWorld.initialized = false ∧
    c2sys.compat c2ent = true ∧
    trackedOf (entsThenSys mkWorld c2sys [c2ent]) c2sys.sysId = some [] ∧
    trackedOf (sysThenEnts mkWorld c2sys [c2ent]) c2sys.sysId = some ["E1"] :=
  ⟨rfl, rfl, rfl, rfl⟩

/-- An initialized, otherwise fresh world, for the C2 witness. -/
def wInit : World := { mkWorld with initialized := true }

/-- A compatible (active) entity named `X`. -/
def c2entX : Entity := mkEntity "X"

/-- An incompatible (inactive) entity named `Y`. -/
def c2entY : Entity := { mkEntity "Y" with active := false }

/-- C2 witness: on the initialized world, either registration order
leaves the system tracking exactly the compatible entity `X`. -/
theorem c2_witness :
    trackedOf (sysThenEnts wInit (mkSys 7 "S" 10) [c2entX, c2entY]) 7 = some ["X"] ∧
    trackedOf (entsThenSys wInit (mkSys 7 "S" 10) [c2entX, c2entY]) 7 = some ["X"] := by
  have h := c2_tracked_subset_order_independent_when_initialized wInit (mkSys 7 "S" 10)
    [c2entX, c2entY] rfl rfl (by intro t ht; exact absurd ht (List.not_mem_nil t)) rfl
    (by decide)
  exact ⟨h.1.trans (by rfl), h.2.trans (by rfl)⟩
